import Mathlib

/-!
Verification of the soft UART core (raspberry_soft_uart.c): the TX and RX
bit-timing state machines, the framing/parity configuration, the TX byte
queue interface, and the session (open) logic, embedded shallowly as pure
Lean functions over explicit state records.

Machine integers: the C `unsigned char`/`unsigned int` data values are
modelled as `Nat` (the bitwise operations used keep every value small, and
truncation to `unsigned char` is made explicit as `% 256`); the C `int`
cursor and index variables, which can hold `-1`, are modelled as `Int`.
-/

namespace SoftUart

/-- Modelled from the spec: the repository's `queue.c` / `queue.h` (the
bounded TX byte FIFO referenced by `raspberry_soft_uart.c` via
`initialize_queue`, `enqueue_string`, `dequeue_character`,
`get_queue_room`, `get_queue_size`) is not part of the given sources.
Per the spec it is a bounded FIFO of bytes with fixed capacity: `enqueue`
appends as many leading bytes of the input as remaining capacity allows
and reports the count accepted; `dequeue` removes the oldest byte. -/
structure Queue where
  cap : Nat
  data : List Nat
deriving Repr, DecidableEq

/-- Modelled from the spec: clearing the ByteQueue (capacity is fixed at
construction and the queue is cleared and reused across open cycles). -/
def queue_clear (q : Queue) : Queue :=
  { q with data := [] }

/-- Modelled from the spec: number of characters in the queue. -/
def get_queue_size (q : Queue) : Nat :=
  q.data.length

/-- Modelled from the spec: number of characters that can still be added. -/
def get_queue_room (q : Queue) : Nat :=
  q.cap - q.data.length

/-- Modelled from the spec: appends as many leading bytes of the input as
remaining capacity allows, in order, and returns how many were accepted
(0 if full). Never blocks and never partially corrupts an entry. -/
def enqueue_string (q : Queue) (s : List Nat) : Queue × Nat :=
  let accepted := min s.length (get_queue_room q)
  ({ q with data := q.data ++ s.take accepted }, accepted)

/-- Modelled from the spec: removes and returns the oldest byte, or
signals empty (the C version returns 0/1 and writes through a pointer). -/
def dequeue_character (q : Queue) : Option (Nat × Queue) :=
  match q.data with
  | [] => none
  | c :: rest => some (c, { q with data := rest })

/-- The framing configuration: the module-level variables `stop_bits`,
`parity_en`, `ignore_parity_errors`, `parity_init`, `final_stop_bit_index`
and `parity_index` of raspberry_soft_uart.c, bundled as one record.
The C flags are `int`s tested for truthiness, kept here as `Int` compared
against 0; `parity_init` only ever holds 0 or 1 and is kept as `Nat` so it
can seed the (0/1-valued) parity accumulators. -/
structure Config where
  stop_bits : Int
  parity_en : Int
  ignore_parity_errors : Int
  parity_init : Nat
  final_stop_bit_index : Int
  parity_index : Int
deriving Repr, DecidableEq

/-- The static initializers of the module variables: `stop_bits = 1`,
`parity_en = 0`, `ignore_parity_errors = 0`, `parity_init = 0`,
`final_stop_bit_index = 8`, `parity_index = -1`. -/
def initConfig : Config :=
  { stop_bits := 1, parity_en := 0, ignore_parity_errors := 0,
    parity_init := 0, final_stop_bit_index := 8, parity_index := -1 }

/-- `recalc_indices` from raspberry_soft_uart.c: recomputes `parity_index`
and `final_stop_bit_index` from the `parity_en` flag and `stop_bits`. -/
def recalc_indices (c : Config) : Config :=
  if c.parity_en ≠ 0 then
    { c with parity_index := 8, final_stop_bit_index := 8 + c.stop_bits }
  else
    { c with parity_index := -1, final_stop_bit_index := 7 + c.stop_bits }

/-- `raspberry_soft_uart_set_stop_bits`: stores the new stop-bit count and
recomputes the derived indices; returns 1. -/
def raspberry_soft_uart_set_stop_bits (c : Config) (s : Int) : Config × Int :=
  (recalc_indices { c with stop_bits := s }, 1)

/-- `raspberry_soft_uart_set_parity`: stores the parity-enable flag, sets
`parity_init` to 1 when odd parity is requested and 0 otherwise, stores
the ignore-parity-errors flag, recomputes the derived indices; returns 1. -/
def raspberry_soft_uart_set_parity (c : Config) (en odd ig : Int) : Config × Int :=
  (recalc_indices
    { c with parity_en := en,
             parity_init := if odd ≠ 0 then 1 else 0,
             ignore_parity_errors := ig }, 1)

/-- The TX engine's callback-persistent state: the `static` variables
`character`, `bit_index` and `parity` of `handle_tx`. -/
structure TxState where
  character : Nat
  bit_index : Int
  parity : Nat
deriving Repr, DecidableEq

/-- The TX state at module load: `character = 0`, `bit_index = -1`,
`parity = 0`. -/
def txInit : TxState :=
  { character := 0, bit_index := -1, parity := 0 }

/-- One tick of `handle_tx` from raspberry_soft_uart.c. Returns the new
TX state, the new queue, the value written to the TX line this tick (none
when the idle branch finds the queue empty or no branch matches), and
whether the timer is rescheduled (`HRTIMER_RESTART`). -/
def handle_tx (cfg : Config) (s : TxState) (q : Queue) :
    TxState × Queue × Option Nat × Bool :=
  -- Start bit.
  if s.bit_index = -1 then
    match dequeue_character q with
    | some (c, q1) =>
        ({ character := c, bit_index := s.bit_index + 1, parity := cfg.parity_init },
         q1, some 0, true)
    | none => (s, q, none, false)
  -- Data bits.
  else if 0 ≤ s.bit_index ∧ s.bit_index < 8 then
    let bit_value := 1 &&& (s.character >>> s.bit_index.toNat)
    ({ s with parity := s.parity ^^^ bit_value, bit_index := s.bit_index + 1 },
     q, some bit_value, true)
  -- Parity bit (optional).
  else if s.bit_index = cfg.parity_index then
    ({ s with bit_index := s.bit_index + 1 }, q, some s.parity, true)
  -- Stop bit(s).
  else if s.bit_index ≤ cfg.final_stop_bit_index then
    if s.bit_index = cfg.final_stop_bit_index then
      ({ character := 0, bit_index := -1, parity := 0 }, q, some 1,
       get_queue_size q > 0)
    else
      ({ s with bit_index := s.bit_index + 1 }, q, some 1, true)
  else
    (s, q, none, false)

/-- `raspberry_soft_uart_send_string`: enqueues the string and, if the TX
timer is not active, starts it. Takes the current queue and whether the
TX hrtimer is active; returns the new queue, the accepted count, and
whether `hrtimer_start` was invoked on the TX timer. -/
def raspberry_soft_uart_send_string (q : Queue) (s : List Nat)
    (timer_tx_active : Bool) : Queue × Nat × Bool :=
  let r := enqueue_string q s
  (r.1, r.2, !timer_tx_active)

/-- The RX engine's callback-persistent state: the module variable
`rx_bit_index` together with the `static` variables `character`, `parity`
and `parity_ok` of `handle_rx`. -/
structure RxState where
  rx_bit_index : Int
  character : Nat
  parity : Nat
  parity_ok : Bool
deriving Repr, DecidableEq

/-- The RX state at module load: `rx_bit_index = -1`, `character = 0`,
`parity = 0`, `parity_ok = true`. -/
def rxInit : RxState :=
  { rx_bit_index := -1, character := 0, parity := 0, parity_ok := true }

/-- The truncation performed by calling `receive_character(character)`:
the `unsigned int` shift register is passed as `unsigned char`, keeping
its low 8 bits, and that byte is what reaches the sink. -/
def receive_character (character : Nat) : Nat :=
  character % 256

/-- One tick of `handle_rx` from raspberry_soft_uart.c, given the sampled
input-line value `bit_value`. Returns the new RX state, the byte delivered
to the sink this tick (if any), and whether the timer is rescheduled. -/
def handle_rx (cfg : Config) (s : RxState) (bit_value : Nat) :
    RxState × Option Nat × Bool :=
  -- Start bit.
  if s.rx_bit_index = -1 then
    ({ rx_bit_index := s.rx_bit_index + 1, character := 0,
       parity := cfg.parity_init, parity_ok := true }, none, true)
  -- Data bits.
  else if 0 ≤ s.rx_bit_index ∧ s.rx_bit_index < 8 then
    let c1 := if bit_value = 0 then s.character &&& 0xfeff
              else s.character ||| 0x0100
    ({ s with parity := s.parity ^^^ bit_value,
              rx_bit_index := s.rx_bit_index + 1,
              character := c1 >>> 1 }, none, true)
  -- Parity bit (optional).
  else if s.rx_bit_index = cfg.parity_index then
    ({ s with parity_ok := if bit_value ≠ s.parity then false else s.parity_ok,
              rx_bit_index := s.rx_bit_index + 1 }, none, true)
  -- Extra stop bit (optional).
  else if s.rx_bit_index < cfg.final_stop_bit_index then
    ({ s with rx_bit_index := s.rx_bit_index + 1 }, none, true)
  -- Final stop bit.
  else if s.rx_bit_index = cfg.final_stop_bit_index then
    ({ s with rx_bit_index := -1 },
     if s.parity_ok || cfg.ignore_parity_errors ≠ 0
     then some (receive_character s.character) else none,
     false)
  else
    (s, none, false)

/-- `handle_rx_start`, the falling-edge IRQ handler: when the RX cursor is
waiting for a start edge (`rx_bit_index == -1`) it starts the RX timer at
half a bit period; otherwise it does nothing. Returns the (unchanged) RX
state and whether `hrtimer_start` was invoked. -/
def handle_rx_start (s : RxState) : RxState × Bool :=
  if s.rx_bit_index = -1 then (s, true) else (s, false)

/-- The module-level session state touched by `raspberry_soft_uart_open`:
`current_tty`, the TX queue, the RX cursor `rx_bit_index`, and whether the
RX edge IRQ is enabled. A tty is identified by a `Nat`. -/
structure ModuleState where
  current_tty : Option Nat
  queue_tx : Queue
  rx_bit_index : Int
  irq_enabled : Bool
deriving Repr, DecidableEq

/-- `raspberry_soft_uart_open`: sets `rx_bit_index = -1`, then, only if no
tty is currently attached, attaches the given tty, reinitializes the TX
queue, enables the RX edge IRQ and succeeds (returns 1); otherwise it
returns 0. -/
def raspberry_soft_uart_open (m : ModuleState) (tty : Nat) : ModuleState × Int :=
  let m1 := { m with rx_bit_index := -1 }
  if m.current_tty = none then
    ({ m1 with current_tty := some tty,
               queue_tx := queue_clear m.queue_tx,
               irq_enabled := true }, 1)
  else
    (m1, 0)

/-- Runs `handle_tx` for up to `fuel` ticks, collecting the sequence of
values written to the TX line, and stopping as soon as a tick does not
reschedule the timer (the physical behavior: an unrescheduled hrtimer
fires no further tick). -/
def txRun : Nat → Config → TxState → Queue → List Nat
  | 0, _, _, _ => []
  | fuel + 1, cfg, s, q =>
    match handle_tx cfg s q with
    | (s1, q1, out, restart) =>
      let rest := if restart then txRun fuel cfg s1 q1 else []
      match out with
      | some v => v :: rest
      | none => rest

/-- The bit sequence `handle_tx` produces for a single byte `b`: the TX
engine is started in its idle state with `b` as the only queued byte and
ticked until it disarms. -/
def txFrameBits (cfg : Config) (b : Nat) : List Nat :=
  txRun 20 cfg txInit { cap := 256, data := [b] }

/-- Feeds a line-sample sequence into `handle_rx`, one tick per sample,
stopping as soon as a tick does not reschedule the timer. Returns the
final RX state and the list of bytes delivered to the sink. -/
def rxRun : Config → RxState → List Nat → RxState × List Nat
  | _, s, [] => (s, [])
  | cfg, s, b :: bs =>
    match handle_rx cfg s b with
    | (s1, d, restart) =>
      if restart then
        match rxRun cfg s1 bs with
        | (s2, ds) => (s2, match d with | some v => v :: ds | none => ds)
      else
        (s1, match d with | some v => [v] | none => [])

/-- The full TX→RX round trip for one byte under a given configuration:
encode `b` with the TX engine, feed the exact bit sequence into the RX
engine starting in the waiting-for-start state (the first tick is the
half-period start tick), and check that exactly `b` is delivered and the
parity-ok flag survived the frame. -/
def roundtrip (cfg : Config) (b : Nat) : Bool :=
  let bits := txFrameBits cfg b
  match rxRun cfg rxInit bits with
  | (s, ds) => ds == [b] && s.parity_ok && (s.rx_bit_index == -1)

/-- The configuration reached from the module defaults by the setter
calls: `pm = 0` for no parity, `1` for even, `2` for odd; `sb` stop bits. -/
def cfgOf (sb : Int) (pm : Nat) : Config :=
  (raspberry_soft_uart_set_stop_bits
    ((raspberry_soft_uart_set_parity initConfig
        (if pm = 0 then 0 else 1) (if pm = 2 then 1 else 0) 0).1) sb).1

/-- The consistency invariant on the derived frame-layout constants: the
parity bit slot is 8 when parity is enabled and absent (-1) when disabled,
and the final stop bit slot is `8 + stop_bits` (parity enabled) or
`7 + stop_bits` (parity disabled). -/
def IndicesConsistent (c : Config) : Prop :=
  (c.parity_en ≠ 0 →
    c.parity_index = 8 ∧ c.final_stop_bit_index = 8 + c.stop_bits)
  ∧ (c.parity_en = 0 →
    c.parity_index = -1 ∧ c.final_stop_bit_index = 7 + c.stop_bits)

instance (c : Config) : Decidable (IndicesConsistent c) := by
  unfold IndicesConsistent; infer_instance

/-- A call to either framing setter, as data. -/
inductive SetterCall where
  | stopBits (n : Int)
  | parity (en odd ig : Int)

/-- Applies one setter call to a configuration. -/
def applyCall (c : Config) : SetterCall → Config
  | .stopBits n => (raspberry_soft_uart_set_stop_bits c n).1
  | .parity en odd ig => (raspberry_soft_uart_set_parity c en odd ig).1

/-- Applies a sequence of setter calls, oldest first. -/
def applyCalls (c : Config) (calls : List SetterCall) : Config :=
  calls.foldl applyCall c

lemma recalc_indices_consistent (c : Config) :
    IndicesConsistent (recalc_indices c) := by
  unfold recalc_indices IndicesConsistent
  by_cases h : c.parity_en = 0 <;> simp [h]

lemma applyCall_consistent (c : Config) (x : SetterCall) :
    IndicesConsistent (applyCall c x) := by
  cases x <;>
    simp only [applyCall, raspberry_soft_uart_set_stop_bits,
      raspberry_soft_uart_set_parity] <;>
    exact recalc_indices_consistent _

lemma applyCalls_consistent (calls : List SetterCall) :
    ∀ c : Config, IndicesConsistent c →
      IndicesConsistent (applyCalls c calls) := by
  induction calls with
  | nil => intro c hc; exact hc
  | cons x xs ih =>
      intro c _
      exact ih (applyCall c x) (applyCall_consistent c x)

/-- C7: after every sequence of calls to the stop-bit and parity setters
(starting from the module's initial configuration), the derived
frame-layout constants are consistent with the current flags — the parity
slot is 8 when parity is enabled and -1 when disabled, and the final stop
slot is `8 + stop_bits` (enabled) or `7 + stop_bits` (disabled); moreover
each single setter call re-establishes this invariant from any
configuration whatsoever before returning. -/
theorem c7_indices_consistent :
    (∀ calls : List SetterCall, IndicesConsistent (applyCalls initConfig calls))
    ∧ (∀ (c : Config) (x : SetterCall), IndicesConsistent (applyCall c x)) := by
  constructor
  · intro calls
    exact applyCalls_consistent calls initConfig (by decide)
  · exact applyCall_consistent

/-- C5: a falling-edge signal arriving while the RX cursor is not in the
waiting-for-start-edge state (`rx_bit_index ≠ -1`) leaves the RX state
unchanged and does not start the receive timer. -/
theorem c5_edge_debounce (s : RxState) (h : s.rx_bit_index ≠ -1) :
    handle_rx_start s = (s, false) := by
  simp [handle_rx_start, h]

/-- C5 witness: a concrete edge during a frame in progress is a no-op. -/
theorem c5_edge_debounce_witness :
    handle_rx_start
        { rx_bit_index := 3, character := 5, parity := 1, parity_ok := true } =
      ({ rx_bit_index := 3, character := 5, parity := 1, parity_ok := true },
       false) :=
  c5_edge_debounce
    { rx_bit_index := 3, character := 5, parity := 1, parity_ok := true }
    (by decide)

/-- C10: `raspberry_soft_uart_send_string` invokes `hrtimer_start` on the
TX timer exactly when the timer is not already active — for every input
string (empty included) and every queue state (full included, where the
accepted count is 0), and independently of any session state (the function
consults none). -/
theorem c10_send_arms (q : Queue) (s : List Nat) (active : Bool) :
    (raspberry_soft_uart_send_string q s active).2.2 = !active := by
  simp [raspberry_soft_uart_send_string]

/-- C4 counterexample: with a session already open (`current_tty` set) and
an RX frame in progress (`rx_bit_index = 3`), a second `open` returns
failure (0) as claimed but does NOT leave the RX frame state unchanged:
it resets `rx_bit_index` to -1 before checking `current_tty`. -/
theorem c4_open_counterexample :
    (raspberry_soft_uart_open
        { current_tty := some 0, queue_tx := { cap := 256, data := [7] },
          rx_bit_index := 3, irq_enabled := true } 1).2 = 0
    ∧ ¬ ((raspberry_soft_uart_open
        { current_tty := some 0, queue_tx := { cap := 256, data := [7] },
          rx_bit_index := 3, irq_enabled := true } 1).1.rx_bit_index = 3) := by
  decide

/-- C4 (amended): calling `open` a second time without an intervening
close returns failure (0) and leaves the current tty, the TX queue
contents and the IRQ-enable state untouched, but unconditionally resets
the RX cursor to the waiting-for-start-edge state (-1), abandoning any RX
frame in progress at the time of the failed call. -/
theorem c4_open_exclusivity (m : ModuleState) (tty : Nat)
    (h : m.current_tty ≠ none) :
    (raspberry_soft_uart_open m tty).2 = 0
    ∧ (raspberry_soft_uart_open m tty).1.current_tty = m.current_tty
    ∧ (raspberry_soft_uart_open m tty).1.queue_tx = m.queue_tx
    ∧ (raspberry_soft_uart_open m tty).1.irq_enabled = m.irq_enabled
    ∧ (raspberry_soft_uart_open m tty).1.rx_bit_index = -1 := by
  simp [raspberry_soft_uart_open, h]

/-- C4 witness: the amended statement at a concrete open session. -/
theorem c4_open_exclusivity_witness :
    (raspberry_soft_uart_open
        { current_tty := some 0, queue_tx := { cap := 4, data := [9] },
          rx_bit_index := 2, irq_enabled := true } 1).2 = 0
    ∧ (raspberry_soft_uart_open
        { current_tty := some 0, queue_tx := { cap := 4, data := [9] },
          rx_bit_index := 2, irq_enabled := true } 1).1.current_tty = some 0
    ∧ (raspberry_soft_uart_open
        { current_tty := some 0, queue_tx := { cap := 4, data := [9] },
          rx_bit_index := 2, irq_enabled := true } 1).1.queue_tx
        = { cap := 4, data := [9] }
    ∧ (raspberry_soft_uart_open
        { current_tty := some 0, queue_tx := { cap := 4, data := [9] },
          rx_bit_index := 2, irq_enabled := true } 1).1.irq_enabled = true
    ∧ (raspberry_soft_uart_open
        { current_tty := some 0, queue_tx := { cap := 4, data := [9] },
          rx_bit_index := 2, irq_enabled := true } 1).1.rx_bit_index = -1 :=
  c4_open_exclusivity
    { current_tty := some 0, queue_tx := { cap := 4, data := [9] },
      rx_bit_index := 2, irq_enabled := true } 1 (by decide)

/-- C8: `enqueue_string` appends exactly `min |s| room` leading bytes of
the input in order (no entry is corrupted or reordered), returns that
count, preserves the capacity and the size bound, keeps
`room + len = capacity`, and the resulting queue dequeues its oldest
element first (FIFO). -/
theorem c8_queue_fifo (q : Queue) (s : List Nat)
    (hwf : q.data.length ≤ q.cap) :
    (enqueue_string q s).2 = min s.length (get_queue_room q)
    ∧ (enqueue_string q s).1.data = q.data ++ s.take (enqueue_string q s).2
    ∧ (enqueue_string q s).1.cap = q.cap
    ∧ (enqueue_string q s).1.data.length ≤ q.cap
    ∧ get_queue_room (enqueue_string q s).1
        + get_queue_size (enqueue_string q s).1 = q.cap
    ∧ get_queue_room q + get_queue_size q = q.cap
    ∧ (∀ c rest, (enqueue_string q s).1.data = c :: rest →
        dequeue_character (enqueue_string q s).1
          = some (c, { cap := q.cap, data := rest })) := by
  refine ⟨rfl, rfl, rfl, ?_, ?_, ?_, ?_⟩
  · simp [enqueue_string, get_queue_room]
    omega
  · simp [enqueue_string, get_queue_room, get_queue_size]
    omega
  · simp [get_queue_room, get_queue_size]
    omega
  · intro c rest h
    simp only [enqueue_string] at h
    simp only [dequeue_character, enqueue_string]
    rw [h]

/-- C8 witness: enqueuing three bytes into a queue with room for two
accepts exactly the first two, in order, and the FIFO facts hold. -/
theorem c8_queue_fifo_witness :
    (enqueue_string { cap := 4, data := [1, 2] } [3, 4, 5]).2
        = min 3 (get_queue_room { cap := 4, data := [1, 2] })
    ∧ (enqueue_string { cap := 4, data := [1, 2] } [3, 4, 5]).1.data
        = [1, 2] ++ [3, 4, 5].take
            (enqueue_string { cap := 4, data := [1, 2] } [3, 4, 5]).2
    ∧ (enqueue_string { cap := 4, data := [1, 2] } [3, 4, 5]).1.cap = 4
    ∧ (enqueue_string { cap := 4, data := [1, 2] } [3, 4, 5]).1.data.length ≤ 4
    ∧ get_queue_room (enqueue_string { cap := 4, data := [1, 2] } [3, 4, 5]).1
        + get_queue_size
            (enqueue_string { cap := 4, data := [1, 2] } [3, 4, 5]).1 = 4
    ∧ get_queue_room { cap := 4, data := [1, 2] }
        + get_queue_size { cap := 4, data := [1, 2] } = 4
    ∧ (∀ c rest,
        (enqueue_string { cap := 4, data := [1, 2] } [3, 4, 5]).1.data
          = c :: rest →
        dequeue_character (enqueue_string { cap := 4, data := [1, 2] } [3, 4, 5]).1
          = some (c, { cap := 4, data := rest })) :=
  c8_queue_fifo { cap := 4, data := [1, 2] } [3, 4, 5] (by decide)

/-- Runs `handle_tx` for `n` ticks, keeping only the state and queue. -/
def txStepN : Nat → Config → TxState → Queue → TxState × Queue
  | 0, _, s, q => (s, q)
  | n + 1, cfg, s, q =>
    match handle_tx cfg s q with
    | (s1, q1, _, _) => txStepN n cfg s1 q1

/-- The parity accumulator after the 8 data-bit ticks of `handle_tx` for
byte `b` — the state reached from just after the start bit (cursor 0,
accumulator seeded with `parity_init`). This is the value the parity
branch of `handle_tx` then drives onto the line. -/
def txParityBit (cfg : Config) (b : Nat) : Nat :=
  (txStepN 8 cfg { character := b, bit_index := 0, parity := cfg.parity_init }
    { cap := 256, data := [] }).1.parity

/-- Even parity, 1 stop bit. -/
def evenCfg : Config := cfgOf 1 1

/-- Odd parity, 1 stop bit. -/
def oddCfg : Config := cfgOf 1 2

/-- The number of set bits among the 8 data bits of a byte. -/
def countSetBits (b : Nat) : Nat :=
  ((List.range 8).map (fun i => b >>> i &&& 1)).sum

set_option maxRecDepth 100000 in
set_option maxHeartbeats 1600000 in
/-- C2: `set_parity` seeds the parity accumulator with 1 for odd parity
and 0 for even; the start-bit branch of `handle_tx` loads that seed; and
after the 8 data bits are XORed in, the transmitted parity bit (the
accumulator's final value, which is also bit 9 of the emitted frame)
makes the total number of set bits among data plus parity even under even
parity and odd under odd parity — in particular 0x00 ↦ 0/1, 0xFF ↦ 0/1
and 0x01 ↦ 1/0 for even/odd. -/
theorem c2_parity_correctness :
    (∀ (c : Config) (en odd ig : Int),
        ((raspberry_soft_uart_set_parity c en odd ig).1).parity_init
          = if odd ≠ 0 then 1 else 0)
    ∧ (∀ (cfg : Config) (s : TxState) (q : Queue),
        s.bit_index = -1 → q.data ≠ [] →
        ((handle_tx cfg s q).1).parity = cfg.parity_init)
    ∧ (∀ b < 256,
        (countSetBits b + txParityBit evenCfg b) % 2 = 0
        ∧ (countSetBits b + txParityBit oddCfg b) % 2 = 1
        ∧ (txFrameBits evenCfg b).getD 9 2 = txParityBit evenCfg b
        ∧ (txFrameBits oddCfg b).getD 9 2 = txParityBit oddCfg b)
    ∧ txParityBit evenCfg 0x00 = 0 ∧ txParityBit oddCfg 0x00 = 1
    ∧ txParityBit evenCfg 0xff = 0 ∧ txParityBit oddCfg 0xff = 1
    ∧ txParityBit evenCfg 0x01 = 1 ∧ txParityBit oddCfg 0x01 = 0 := by
  refine ⟨?_, ?_, ?_, ?_, ?_, ?_, ?_, ?_, ?_⟩
  · intro c en odd ig
    by_cases h : en = 0 <;>
      simp [raspberry_soft_uart_set_parity, recalc_indices, h]
  · intro cfg s q h hq
    match hd : q.data with
    | [] => exact absurd hd hq
    | a :: t => simp [handle_tx, h, dequeue_character, hd]
  · decide
  all_goals decide

/-- C2 witness: the even/odd parity law at the concrete byte 0x2A. -/
theorem c2_parity_correctness_witness :
    (countSetBits 42 + txParityBit evenCfg 42) % 2 = 0
    ∧ (countSetBits 42 + txParityBit oddCfg 42) % 2 = 1
    ∧ (txFrameBits evenCfg 42).getD 9 2 = txParityBit evenCfg 42
    ∧ (txFrameBits oddCfg 42).getD 9 2 = txParityBit oddCfg 42 :=
  c2_parity_correctness.2.2.1 42 (by decide)

/-- C3: at the final stop slot of a frame, `handle_rx` delivers the
truncated shift register to the sink exactly when the parity-ok flag is
true, parity is disabled, or ignore-parity-errors is set (with parity
disabled the flag is necessarily still true, which is the hypothesis
`hpe`); in every case the cursor is reset to the waiting-for-start-edge
state -1, the rest of the state is untouched, and the RX timer is not
rescheduled. -/
theorem c3_final_stop_delivery (cfg : Config) (s : RxState) (bit : Nat)
    (hc : IndicesConsistent cfg) (hsb : 1 ≤ cfg.stop_bits)
    (hidx : s.rx_bit_index = cfg.final_stop_bit_index)
    (hpe : cfg.parity_en = 0 → s.parity_ok = true) :
    handle_rx cfg s bit =
      ({ s with rx_bit_index := -1 },
       if s.parity_ok = true ∨ cfg.parity_en = 0 ∨ cfg.ignore_parity_errors ≠ 0
       then some (receive_character s.character) else none,
       false) := by
  obtain ⟨hcp, hcn⟩ := hc
  have hfin : (8 : Int) ≤ cfg.final_stop_bit_index := by
    by_cases h : cfg.parity_en = 0
    · obtain ⟨_, h2⟩ := hcn h; omega
    · obtain ⟨_, h2⟩ := hcp h; omega
  have h1 : ¬ (s.rx_bit_index = -1) := by omega
  have h2 : ¬ (0 ≤ s.rx_bit_index ∧ s.rx_bit_index < 8) := by omega
  have h3 : ¬ (s.rx_bit_index = cfg.parity_index) := by
    by_cases h : cfg.parity_en = 0
    · obtain ⟨hp, _⟩ := hcn h; omega
    · obtain ⟨hp, hf⟩ := hcp h; omega
  have h4 : ¬ (s.rx_bit_index < cfg.final_stop_bit_index) := by omega
  simp only [handle_rx]
  rw [if_neg h1, if_neg h2, if_neg h3, if_neg h4, if_pos hidx]
  by_cases hok : s.parity_ok = true
  · simp [hok]
  · have hpe1 : ¬ cfg.parity_en = 0 := fun h => hok (hpe h)
    by_cases hig : cfg.ignore_parity_errors = 0
    · simp [Bool.not_eq_true] at hok
      simp [hok, hig, hpe1]
    · simp [Bool.not_eq_true] at hok
      simp [hok, hig, hpe1]

/-- C3 witness: a concrete final-stop tick (even parity, one stop bit,
cursor at slot 9) delivering the assembled byte. -/
theorem c3_final_stop_delivery_witness :
    handle_rx evenCfg
        { rx_bit_index := 9, character := 85, parity := 0, parity_ok := true }
        0 =
      ({ rx_bit_index := -1, character := 85, parity := 0, parity_ok := true },
       if (true : Bool) = true ∨ evenCfg.parity_en = 0
          ∨ evenCfg.ignore_parity_errors ≠ 0
       then some (receive_character 85) else none,
       false) :=
  c3_final_stop_delivery evenCfg
    { rx_bit_index := 9, character := 85, parity := 0, parity_ok := true }
    0 (by decide) (by decide) (by decide) (by decide)

/-- C6: with the TX queue empty, the final-stop-bit tick resets the TX
frame state and does not reschedule the timer, an idle tick does nothing
and does not reschedule the timer, and a later `send` call (with the
timer inactive) starts the timer again. -/
theorem c6_idle_disarm (cfg : Config) (s : TxState) (q : Queue)
    (hc : IndicesConsistent cfg) (hsb : 1 ≤ cfg.stop_bits)
    (hq : q.data = []) :
    (s.bit_index = cfg.final_stop_bit_index →
      handle_tx cfg s q
        = ({ character := 0, bit_index := -1, parity := 0 }, q, some 1, false))
    ∧ (s.bit_index = -1 → handle_tx cfg s q = (s, q, none, false))
    ∧ (∀ (str : List Nat) (q2 : Queue),
        (raspberry_soft_uart_send_string q2 str false).2.2 = true) := by
  obtain ⟨hcp, hcn⟩ := hc
  refine ⟨?_, ?_, ?_⟩
  · intro hidx
    have hfin : (8 : Int) ≤ cfg.final_stop_bit_index := by
      by_cases h : cfg.parity_en = 0
      · obtain ⟨_, h2⟩ := hcn h; omega
      · obtain ⟨_, h2⟩ := hcp h; omega
    have h1 : ¬ (s.bit_index = -1) := by omega
    have h2 : ¬ (0 ≤ s.bit_index ∧ s.bit_index < 8) := by omega
    have h3 : ¬ (s.bit_index = cfg.parity_index) := by
      by_cases h : cfg.parity_en = 0
      · obtain ⟨hp, _⟩ := hcn h; omega
      · obtain ⟨hp, hf⟩ := hcp h; omega
    simp only [handle_tx]
    rw [if_neg h1, if_neg h2, if_neg h3, if_pos (le_of_eq hidx), if_pos hidx]
    simp [get_queue_size, hq]
  · intro h
    simp only [handle_tx]
    rw [if_pos h]
    simp [dequeue_character, hq]
  · intro str q2
    simp [raspberry_soft_uart_send_string]

/-- C6 witness: a concrete final-stop tick on an empty queue (no parity,
one stop bit, so the final stop slot is 8) disarms the TX timer. -/
theorem c6_idle_disarm_witness :
    ((8 : Int) = (cfgOf 1 0).final_stop_bit_index →
      handle_tx (cfgOf 1 0) { character := 0xab, bit_index := 8, parity := 0 }
          { cap := 8, data := [] }
        = ({ character := 0, bit_index := -1, parity := 0 },
           { cap := 8, data := [] }, some 1, false))
    ∧ ((8 : Int) = -1 →
      handle_tx (cfgOf 1 0) { character := 0xab, bit_index := 8, parity := 0 }
          { cap := 8, data := [] }
        = ({ character := 0xab, bit_index := 8, parity := 0 },
           { cap := 8, data := [] }, none, false))
    ∧ (∀ (str : List Nat) (q2 : Queue),
        (raspberry_soft_uart_send_string q2 str false).2.2 = true) :=
  c6_idle_disarm (cfgOf 1 0) { character := 0xab, bit_index := 8, parity := 0 }
    { cap := 8, data := [] } (by decide) (by decide) (by decide)

/-- The character update performed by one data-bit tick of `handle_rx`:
write the sampled bit into bit 8 of the 9-bit-wide shift register
(`character &= 0xfeff` / `character |= 0x0100`), then shift the register
right by one. -/
def rxShiftStep (c b : Nat) : Nat :=
  (if b = 0 then c &&& 0xfeff else c ||| 0x0100) >>> 1

/-- Modelled from the spec: the direct LSB-first assembly the spec asks to
compare the shift trick against — the value `sum over i of sample_i * 2^i`
of a sample list, first sample least significant. -/
def lsbValue : List Nat → Nat
  | [] => 0
  | b :: bs => b + 2 * lsbValue bs

/-- Threads a sample list through `handle_rx`, keeping only the state. -/
def rxFold (cfg : Config) (s : RxState) (bs : List Nat) : RxState :=
  bs.foldl (fun t b => (handle_rx cfg t b).1) s

set_option maxRecDepth 10000 in
lemma rxShiftStep_arith :
    ∀ c < 256, ∀ b < 2, rxShiftStep c b = (c + 256 * b) / 2 := by
  decide

lemma foldl_rxShiftStep :
    ∀ (bs : List Nat) (k c : Nat), c < 256 → bs.length + k = 8 →
      (∀ x ∈ bs, x ≤ 1) →
      bs.foldl rxShiftStep c = c / 2 ^ bs.length + lsbValue bs * 2 ^ k := by
  intro bs
  induction bs with
  | nil => intro k c hc _ _; simp [lsbValue]
  | cons b t ih =>
      intro k c hc hlen hb
      have hb0 : b ≤ 1 := hb b (by simp)
      have hbt : ∀ x ∈ t, x ≤ 1 := fun x hx => hb x (by simp [hx])
      have hstep : rxShiftStep c b = (c + 256 * b) / 2 :=
        rxShiftStep_arith c hc b (by omega)
      have hc1 : (c + 256 * b) / 2 < 256 := by omega
      have hlen1 : t.length + (k + 1) = 8 := by
        simp only [List.length_cons] at hlen; omega
      have hrec : List.foldl rxShiftStep ((c + 256 * b) / 2) t
          = (c + 256 * b) / 2 / 2 ^ t.length + lsbValue t * 2 ^ (k + 1) :=
        ih (k + 1) _ hc1 hlen1 hbt
      have hdd : (c + 256 * b) / 2 / 2 ^ t.length
          = (c + 256 * b) / 2 ^ (t.length + 1) := by
        rw [Nat.div_div_eq_div_mul, pow_succ, mul_comm (2 ^ t.length) 2]
      have h256 : 256 * b = 2 ^ (t.length + 1) * (b * 2 ^ k) := by
        have hpow : 2 ^ (t.length + 1) * 2 ^ k = 256 := by
          rw [← pow_add]
          have : t.length + 1 + k = 8 := by omega
          rw [this]; norm_num
        calc 256 * b = 2 ^ (t.length + 1) * 2 ^ k * b := by rw [hpow]
          _ = 2 ^ (t.length + 1) * (b * 2 ^ k) := by ring
      have hdiv : (c + 256 * b) / 2 ^ (t.length + 1)
          = c / 2 ^ (t.length + 1) + b * 2 ^ k := by
        rw [h256, Nat.add_mul_div_left _ _ (by positivity)]
      calc List.foldl rxShiftStep c (b :: t)
          = List.foldl rxShiftStep ((c + 256 * b) / 2) t := by
            simp only [List.foldl_cons, hstep]
        _ = c / 2 ^ (t.length + 1) + b * 2 ^ k + lsbValue t * 2 ^ (k + 1) := by
            rw [hrec, hdd, hdiv]
        _ = c / 2 ^ (b :: t).length + lsbValue (b :: t) * 2 ^ k := by
            simp only [List.length_cons, lsbValue, pow_succ]
            ring

lemma lsbValue_lt :
    ∀ bs : List Nat, (∀ x ∈ bs, x ≤ 1) → lsbValue bs < 2 ^ bs.length := by
  intro bs
  induction bs with
  | nil => intro _; simp [lsbValue]
  | cons b t ih =>
      intro hb
      have hb0 : b ≤ 1 := hb b (by simp)
      have ht : lsbValue t < 2 ^ t.length := ih fun x hx => hb x (by simp [hx])
      simp only [lsbValue, List.length_cons, pow_succ]
      omega

lemma rxFold_data :
    ∀ (bs : List Nat) (cfg : Config) (s : RxState),
      0 ≤ s.rx_bit_index → s.rx_bit_index + (bs.length : Int) ≤ 8 →
      (rxFold cfg s bs).character = bs.foldl rxShiftStep s.character
      ∧ (rxFold cfg s bs).rx_bit_index
          = s.rx_bit_index + (bs.length : Int) := by
  intro bs
  induction bs with
  | nil => intro cfg s _ _; simp [rxFold]
  | cons b t ih =>
      intro cfg s h0 hlen
      have hlent : ((b :: t).length : Int) = (t.length : Int) + 1 := by
        simp
      have h1 : ¬ (s.rx_bit_index = -1) := by omega
      have hlt : s.rx_bit_index < 8 := by
        have : (0 : Int) ≤ (t.length : Int) := by positivity
        omega
      have h2 : 0 ≤ s.rx_bit_index ∧ s.rx_bit_index < 8 := ⟨h0, hlt⟩
      have hstate : (handle_rx cfg s b).1
          = { s with parity := s.parity ^^^ b,
                     rx_bit_index := s.rx_bit_index + 1,
                     character := rxShiftStep s.character b } := by
        simp only [handle_rx, rxShiftStep]
        rw [if_neg h1, if_pos h2]
      have hfold : rxFold cfg s (b :: t)
          = rxFold cfg ((handle_rx cfg s b).1) t := by
        simp [rxFold]
      obtain ⟨ihc, ihi⟩ := ih cfg ((handle_rx cfg s b).1)
        (by rw [hstate]; dsimp; omega)
        (by rw [hstate]; dsimp; omega)
      refine ⟨?_, ?_⟩
      · rw [hfold, ihc, hstate]
        dsimp
      · rw [hfold, ihi, hstate]
        dsimp
        omega

/-- C9: the RX byte-assembly shortcut (inject the sampled bit at bit 8,
then shift right) run over 8 sample bits starting from 0 equals the
direct LSB-first assembly `sum over i of sample_i * 2^i`; the register
never exceeds 8 bits, so its low 8 bits are its value; running the actual
`handle_rx` data ticks from the post-start state computes exactly this
value in the shift register; and the `unsigned char` truncation applied
when the byte is handed to the sink leaves it unchanged. -/
theorem c9_rx_assembly (bs : List Nat) (hlen : bs.length = 8)
    (hb : ∀ x ∈ bs, x ≤ 1) :
    bs.foldl rxShiftStep 0 = lsbValue bs
    ∧ lsbValue bs < 256
    ∧ (∀ (cfg : Config) (p : Nat) (ok : Bool),
        (rxFold cfg
            { rx_bit_index := 0, character := 0, parity := p,
              parity_ok := ok } bs).character = lsbValue bs)
    ∧ receive_character (bs.foldl rxShiftStep 0) = lsbValue bs := by
  have hfold : bs.foldl rxShiftStep 0 = lsbValue bs := by
    have h := foldl_rxShiftStep bs 0 0 (by norm_num) (by omega) hb
    simpa using h
  have hlt : lsbValue bs < 256 := by
    have h := lsbValue_lt bs hb
    rw [hlen] at h
    norm_num at h
    exact h
  refine ⟨hfold, hlt, ?_, ?_⟩
  · intro cfg p ok
    obtain ⟨hc, _⟩ := rxFold_data bs cfg
      { rx_bit_index := 0, character := 0, parity := p, parity_ok := ok }
      (by norm_num) (by rw [hlen]; norm_num)
    rw [hc]
    exact hfold
  · rw [hfold]
    exact Nat.mod_eq_of_lt hlt

/-- C9 witness: the shortcut and the direct assembly agree on the sample
sequence 1,0,1,0,0,1,1,0 (value 0x65 read LSB first). -/
theorem c9_rx_assembly_witness :
    [1, 0, 1, 0, 0, 1, 1, 0].foldl rxShiftStep 0
        = lsbValue [1, 0, 1, 0, 0, 1, 1, 0]
    ∧ lsbValue [1, 0, 1, 0, 0, 1, 1, 0] < 256
    ∧ (∀ (cfg : Config) (p : Nat) (ok : Bool),
        (rxFold cfg
            { rx_bit_index := 0, character := 0, parity := p,
              parity_ok := ok } [1, 0, 1, 0, 0, 1, 1, 0]).character
          = lsbValue [1, 0, 1, 0, 0, 1, 1, 0])
    ∧ receive_character ([1, 0, 1, 0, 0, 1, 1, 0].foldl rxShiftStep 0)
        = lsbValue [1, 0, 1, 0, 0, 1, 1, 0] :=
  c9_rx_assembly [1, 0, 1, 0, 0, 1, 1, 0] (by decide) (by decide)

set_option maxRecDepth 100000 in
set_option maxHeartbeats 4000000 in
/-- C1: for every byte and every configuration with 1 or 2 stop bits and
parity none/even/odd, feeding the exact bit sequence `handle_tx` produces
for that byte (one bit per tick) into `handle_rx` — first tick in the
waiting-for-start state, then one tick per bit — delivers exactly that
byte to the sink, with the parity-ok flag still set at the end of the
frame and the cursor back in the waiting-for-start state. -/
theorem c1_framing_roundtrip :
    ∀ b < 256, ∀ sb : Nat, sb < 2 → ∀ pm < 3,
      roundtrip (cfgOf (Int.ofNat (sb + 1)) pm) b = true := by
  decide

/-- C1 witness: the round trip at byte 0x5A, two stop bits, odd parity. -/
theorem c1_framing_roundtrip_witness :
    roundtrip (cfgOf (Int.ofNat 2) 2) 90 = true :=
  c1_framing_roundtrip 90 (by decide) 1 (by decide) 2 (by decide)

end SoftUart
